import Mathlib

/-!
# Verification of the PNLD audio asset maintenance scripts

A shallow embedding, in Lean 4, of the maintenance scripts of the
`adt-molly-webpub` repository, together with proofs about them.

The scripts embedded here are:

* `scripts/update-audio-references.js` — walks JSON content files and rewrites
  string values referring to `.mp3` audio files so that they refer to `.ogg`
  files instead (`updateObjectReferences`, `updateJsonFile`).
* `scripts/compress-audio.js` — re-encodes MP3 audio to Opus/OGG by spawning
  `ffmpeg` once per file (`init`, `createBackup`, `compressFile`).
* `scripts/compress-audio-mp3.js` — re-encodes MP3 audio to lower-bitrate MP3,
  likewise via `ffmpeg` (`init`, `createBackup`, `compressFile`).

JavaScript values manipulated by the scripts are modelled as follows: parsed
JSON documents become the inductive type `Json` (with explicit, order-preserving
field lists for objects); JavaScript strings become Lean `String`s (lists of
characters); filesystem effects (reads, writes, spawned subprocesses) become
explicit inputs and outputs of the modelled functions.
-/

/-! ## JavaScript string primitives

The reference updater relies on two string operations:

* `value.endsWith('.mp3')` — suffix test;
* `value.replace('.mp3', '.ogg')` — with a *string* pattern (not a regex),
  JavaScript's `String.prototype.replace` replaces only the **first**
  occurrence of the pattern, scanning from the left.
-/

/-- The suffix the scripts look for (`'.mp3'` in the source). -/
def mp3Suffix : String := ".mp3"

/-- The replacement extension (`'.ogg'` in the source). -/
def oggSuffix : String := ".ogg"

/-- `s.endsWith(suffix)` of JavaScript. -/
def jsEndsWith (s suffix : String) : Bool :=
  suffix.data.isSuffixOf s.data

/-- Replace the first occurrence of `pat` in a character list by `repl`;
if `pat` does not occur, return the list unchanged.  This is the semantics of
JavaScript's `String.prototype.replace` with a plain-string pattern. -/
def replaceFirstChars (pat repl : List Char) : List Char → List Char
  | [] => []
  | c :: cs =>
    if pat.isPrefixOf (c :: cs) then repl ++ (c :: cs).drop pat.length
    else c :: replaceFirstChars pat repl cs

/-- `s.replace(pat, repl)` of JavaScript (plain-string pattern: first
occurrence only). -/
def jsReplaceFirst (s pat repl : String) : String :=
  String.mk (replaceFirstChars pat.data repl.data s.data)

/-! ## The JSON value model

A parsed document (`JSON.parse` result).  JavaScript objects preserve the
(string-keyed) property order produced by the parser, and both
`Object.entries` and `JSON.stringify` enumerate properties in that same
order, so an object is modelled as an ordered list of key/value fields. -/

mutual
/-- A parsed JSON value. -/
inductive Json where
  | str : String → Json
  | num : Int → Json
  | bool : Bool → Json
  | null : Json
  | arr : JsonItems → Json
  | obj : JsonFields → Json
deriving DecidableEq

/-- The elements of a JSON array, in order. -/
inductive JsonItems where
  | nil : JsonItems
  | cons : Json → JsonItems → JsonItems
deriving DecidableEq

/-- The fields of a JSON object: key/value pairs in property order. -/
inductive JsonFields where
  | nil : JsonFields
  | cons : String → Json → JsonFields → JsonFields
deriving DecidableEq
end

/-! ## `updateObjectReferences` (update-audio-references.js, lines 93–134)

The JavaScript method returns an object `{ data, hasChanges, changeCount }`.
Three mutually recursive functions mirror its three code paths: the
`Array.isArray(obj)` branch (per-element `map`), the
`typeof obj === 'object' && obj !== null` branch (per-field loop over
`Object.entries`), and the final scalar fallthrough `result.data = obj`. -/

/-- The `{ data, hasChanges, changeCount }` record built by
`updateObjectReferences`. -/
structure UpdateResult where
  data : Json
  hasChanges : Bool
  changeCount : Nat
deriving DecidableEq

/-- The same record while the array branch is accumulating its result. -/
structure ItemsResult where
  data : JsonItems
  hasChanges : Bool
  changeCount : Nat
deriving DecidableEq

/-- The same record while the object branch is accumulating its result. -/
structure FieldsResult where
  data : JsonFields
  hasChanges : Bool
  changeCount : Nat
deriving DecidableEq

mutual
/-- `updateObjectReferences(obj)` of `update-audio-references.js`:
arrays and objects are walked; any other value is returned unchanged with
`hasChanges = false` and `changeCount = 0`. -/
def updateObjectReferences : Json → UpdateResult
  | Json.arr items =>
    let r := updateArrayItems items
    { data := Json.arr r.data, hasChanges := r.hasChanges, changeCount := r.changeCount }
  | Json.obj fields =>
    let r := updateObjectFields fields
    { data := Json.obj r.data, hasChanges := r.hasChanges, changeCount := r.changeCount }
  | j => { data := j, hasChanges := false, changeCount := 0 }

/-- The `obj.map(item => ...)` body of the array branch: a string element
ending in `.mp3` is replaced (first occurrence) and counted; an object or
array element is recursed into, its count added only when it reports changes;
every other element passes through unchanged. -/
def updateArrayItems : JsonItems → ItemsResult
  | JsonItems.nil => ⟨JsonItems.nil, false, 0⟩
  | JsonItems.cons item rest =>
    let tail := updateArrayItems rest
    match item with
    | Json.str s =>
      if jsEndsWith s mp3Suffix then
        ⟨JsonItems.cons (Json.str (jsReplaceFirst s mp3Suffix oggSuffix)) tail.data,
         true, tail.changeCount + 1⟩
      else
        ⟨JsonItems.cons item tail.data, tail.hasChanges, tail.changeCount⟩
    | Json.arr _ | Json.obj _ =>
      let nested := updateObjectReferences item
      if nested.hasChanges then
        ⟨JsonItems.cons nested.data tail.data, true, tail.changeCount + nested.changeCount⟩
      else
        ⟨JsonItems.cons nested.data tail.data, tail.hasChanges, tail.changeCount⟩
    | _ =>
      ⟨JsonItems.cons item tail.data, tail.hasChanges, tail.changeCount⟩

/-- The `for (const [key, value] of Object.entries(obj))` body of the object
branch, with the same three cases as the array branch; keys are written into
the result in the order they are enumerated. -/
def updateObjectFields : JsonFields → FieldsResult
  | JsonFields.nil => ⟨JsonFields.nil, false, 0⟩
  | JsonFields.cons key value rest =>
    let tail := updateObjectFields rest
    match value with
    | Json.str s =>
      if jsEndsWith s mp3Suffix then
        ⟨JsonFields.cons key (Json.str (jsReplaceFirst s mp3Suffix oggSuffix)) tail.data,
         true, tail.changeCount + 1⟩
      else
        ⟨JsonFields.cons key value tail.data, tail.hasChanges, tail.changeCount⟩
    | Json.arr _ | Json.obj _ =>
      let nested := updateObjectReferences value
      if nested.hasChanges then
        ⟨JsonFields.cons key nested.data tail.data, true, tail.changeCount + nested.changeCount⟩
      else
        ⟨JsonFields.cons key nested.data tail.data, tail.hasChanges, tail.changeCount⟩
    | _ =>
      ⟨JsonFields.cons key value tail.data, tail.hasChanges, tail.changeCount⟩
end

/-! ## `updateJsonFile` (update-audio-references.js, lines 71–91)

`updateJsonFile` reads and parses one file inside a `try`; a read or parse
failure lands in the `catch`, which prints a warning naming the file and the
error message and returns `false`.  On success the parsed document is passed
to `updateObjectReferences`; the file is written back only when the result
reports `hasChanges`, and the method returns whether it wrote. -/

/-- The outcome of `fs.readFileSync` + `JSON.parse` for one file: either the
parsed document or the thrown error's message. -/
inductive ReadResult where
  | success : Json → ReadResult
  | failure : String → ReadResult
deriving DecidableEq

/-- The externally visible outcome of one `updateJsonFile` call:
the content written back (if any), the boolean return value, and the warning
emitted (if any). -/
structure FileOutcome where
  written : Option Json
  updated : Bool
  warning : Option String
deriving DecidableEq

/-- `updateJsonFile(filePath)`, as a function of the read/parse outcome. -/
def updateJsonFile (filePath : String) (r : ReadResult) : FileOutcome :=
  match r with
  | ReadResult.failure msg =>
    { written := none, updated := false,
      warning := some ("   ⚠️  Warning: Could not process " ++ filePath ++ ": " ++ msg) }
  | ReadResult.success data =>
    let updatedData := updateObjectReferences data
    if updatedData.hasChanges then
      { written := some updatedData.data, updated := true, warning := none }
    else
      { written := none, updated := false, warning := none }

/-- The per-file loop of `updateLanguageReferences`: every discovered file is
processed by `updateJsonFile`, one after the other, regardless of earlier
failures. -/
def processFiles (files : List (String × ReadResult)) : List FileOutcome :=
  files.map (fun f => updateJsonFile f.fst f.snd)

/-! ## Specification-side definitions

`specSuffixRewrite` renders the spec's wording of the transformation
("replaces every scalar string ending in S with the same string minus S plus
the new suffix"), to be compared with `updateObjectReferences`.  The other
definitions below render properties the claims quantify over. -/

/-- "The same string minus the suffix `.mp3` plus `.ogg`". -/
def suffixSwapped (s : String) : String :=
  String.mk (s.data.take (s.data.length - mp3Suffix.length) ++ oggSuffix.data)

mutual
/-- Modelled from the spec's wording: replace **every** scalar string ending
in `.mp3` (wherever it sits) by the string minus that suffix plus `.ogg`,
leaving every other value unchanged. -/
def specSuffixRewrite : Json → Json
  | Json.str s => if jsEndsWith s mp3Suffix then Json.str (suffixSwapped s) else Json.str s
  | Json.arr items => Json.arr (specSuffixRewriteItems items)
  | Json.obj fields => Json.obj (specSuffixRewriteFields fields)
  | j => j

/-- `specSuffixRewrite` on array elements. -/
def specSuffixRewriteItems : JsonItems → JsonItems
  | JsonItems.nil => JsonItems.nil
  | JsonItems.cons j rest => JsonItems.cons (specSuffixRewrite j) (specSuffixRewriteItems rest)

/-- `specSuffixRewrite` on object fields. -/
def specSuffixRewriteFields : JsonFields → JsonFields
  | JsonFields.nil => JsonFields.nil
  | JsonFields.cons k v rest => JsonFields.cons k (specSuffixRewrite v) (specSuffixRewriteFields rest)
end

mutual
/-- The transformation the code actually performs, written as a plain
tree map: inside arrays and objects, a string ending in `.mp3` has the
**first** occurrence of `.mp3` replaced by `.ogg`; nested containers are
recursed into; a bare root scalar is returned unchanged. -/
def specFirstRewrite : Json → Json
  | Json.arr items => Json.arr (specFirstRewriteItems items)
  | Json.obj fields => Json.obj (specFirstRewriteFields fields)
  | j => j

/-- `specFirstRewrite` on array elements. -/
def specFirstRewriteItems : JsonItems → JsonItems
  | JsonItems.nil => JsonItems.nil
  | JsonItems.cons item rest => JsonItems.cons (specFirstItem item) (specFirstRewriteItems rest)

/-- `specFirstRewrite` on object fields. -/
def specFirstRewriteFields : JsonFields → JsonFields
  | JsonFields.nil => JsonFields.nil
  | JsonFields.cons k v rest => JsonFields.cons k (specFirstItem v) (specFirstRewriteFields rest)

/-- One container member under `specFirstRewrite`. -/
def specFirstItem : Json → Json
  | Json.str s =>
    if jsEndsWith s mp3Suffix then Json.str (jsReplaceFirst s mp3Suffix oggSuffix)
    else Json.str s
  | Json.arr items => Json.arr (specFirstRewriteItems items)
  | Json.obj fields => Json.obj (specFirstRewriteFields fields)
  | j => j
end

mutual
/-- The number of string leaves the walk replaces: strings ending in `.mp3`
that sit directly inside an array or an object, counted once each. -/
def countMatches : Json → Nat
  | Json.arr items => countMatchesItems items
  | Json.obj fields => countMatchesFields fields
  | _ => 0

/-- `countMatches` over array elements. -/
def countMatchesItems : JsonItems → Nat
  | JsonItems.nil => 0
  | JsonItems.cons (Json.str s) rest =>
    (if jsEndsWith s mp3Suffix then 1 else 0) + countMatchesItems rest
  | JsonItems.cons j rest => countMatches j + countMatchesItems rest

/-- `countMatches` over object fields. -/
def countMatchesFields : JsonFields → Nat
  | JsonFields.nil => 0
  | JsonFields.cons _ (Json.str s) rest =>
    (if jsEndsWith s mp3Suffix then 1 else 0) + countMatchesFields rest
  | JsonFields.cons _ v rest => countMatches v + countMatchesFields rest
end

mutual
/-- Structural comparison rendering claim C5: same constructors, same keys in
the same order at every level, and the only values that may differ are scalar
strings ending in `.mp3`, which may have been altered to their rewritten
form. -/
def onlyRefsAltered : Json → Json → Bool
  | Json.str s, Json.str t =>
    t == s || (jsEndsWith s mp3Suffix && t == jsReplaceFirst s mp3Suffix oggSuffix)
  | Json.num n, Json.num m => n == m
  | Json.bool a, Json.bool b => a == b
  | Json.null, Json.null => true
  | Json.arr items, Json.arr items2 => onlyRefsAlteredItems items items2
  | Json.obj fields, Json.obj fields2 => onlyRefsAlteredFields fields fields2
  | _, _ => false

/-- `onlyRefsAltered`, pointwise over array elements. -/
def onlyRefsAlteredItems : JsonItems → JsonItems → Bool
  | JsonItems.nil, JsonItems.nil => true
  | JsonItems.cons j rest, JsonItems.cons j2 rest2 =>
    onlyRefsAltered j j2 && onlyRefsAlteredItems rest rest2
  | _, _ => false

/-- `onlyRefsAltered`, pointwise over object fields: keys must agree
position by position. -/
def onlyRefsAlteredFields : JsonFields → JsonFields → Bool
  | JsonFields.nil, JsonFields.nil => true
  | JsonFields.cons k v rest, JsonFields.cons k2 v2 rest2 =>
    k == k2 && onlyRefsAltered v v2 && onlyRefsAlteredFields rest rest2
  | _, _ => false
end

/-- Does `pat` occur (contiguously) anywhere in `l`? -/
def hasSubChars (pat : List Char) : List Char → Bool
  | [] => pat.isEmpty
  | c :: cs => pat.isPrefixOf (c :: cs) || hasSubChars pat cs

/-- A string is *good* when, if it ends in `.mp3`, that final suffix is its
only occurrence of `.mp3` (equivalently: the part before the final four
characters contains no `.mp3`). -/
def goodString (s : String) : Bool :=
  !(jsEndsWith s mp3Suffix) || !(hasSubChars mp3Suffix.data (s.data.take (s.data.length - mp3Suffix.length)))

mutual
/-- Every string sitting directly inside an array or object of the value is
good (`goodString`). -/
def goodLeaves : Json → Bool
  | Json.arr items => goodItems items
  | Json.obj fields => goodFields fields
  | _ => true

/-- `goodLeaves` over array elements. -/
def goodItems : JsonItems → Bool
  | JsonItems.nil => true
  | JsonItems.cons (Json.str s) rest => goodString s && goodItems rest
  | JsonItems.cons j rest => goodLeaves j && goodItems rest

/-- `goodLeaves` over object fields. -/
def goodFields : JsonFields → Bool
  | JsonFields.nil => true
  | JsonFields.cons _ (Json.str s) rest => goodString s && goodFields rest
  | JsonFields.cons _ v rest => goodLeaves v && goodFields rest
end

mutual
/-- No string sitting directly inside an array or object of the value ends
in `.mp3`. -/
def noMp3Leaves : Json → Bool
  | Json.arr items => noMp3Items items
  | Json.obj fields => noMp3Fields fields
  | _ => true

/-- `noMp3Leaves` over array elements. -/
def noMp3Items : JsonItems → Bool
  | JsonItems.nil => true
  | JsonItems.cons (Json.str s) rest => !(jsEndsWith s mp3Suffix) && noMp3Items rest
  | JsonItems.cons j rest => noMp3Leaves j && noMp3Items rest

/-- `noMp3Leaves` over object fields. -/
def noMp3Fields : JsonFields → Bool
  | JsonFields.nil => true
  | JsonFields.cons _ (Json.str s) rest => !(jsEndsWith s mp3Suffix) && noMp3Fields rest
  | JsonFields.cons _ v rest => noMp3Leaves v && noMp3Fields rest
end

/-- Is the value a bare scalar (not an array, not an object)?  These are the
values that fall through to the `result.data = obj` branch of
`updateObjectReferences`. -/
def isScalar : Json → Bool
  | Json.arr _ => false
  | Json.obj _ => false
  | _ => true

/-! ## The compression scripts (compress-audio.js, compress-audio-mp3.js)

Per audio file, each script spawns one `ffmpeg` subprocess and waits for it.
What the subprocess does is an input of the model: either it ran and exited
with some code — possibly leaving a (partial) output file behind — or it
could not be started at all. -/

/-- Behaviour of one spawned `ffmpeg` subprocess: `exited code out diag`
means the process exited with `code`, the output file exists on disk iff
`out`, and `diag` is the captured stderr text; `spawnFailed msg` means the
process could not be started (no output file was created). -/
inductive FfmpegRun where
  | exited : Nat → Bool → String → FfmpegRun
  | spawnFailed : String → FfmpegRun
deriving DecidableEq

/-- The externally visible outcome of one `compressFile` call: whether the
promise resolved, the rejection message (empty on success), whether the
output file exists on disk afterwards, and whether the input file was
deleted. -/
structure CompressOutcome where
  resolved : Bool
  errMsg : String
  outputExists : Bool
  inputDeleted : Bool
deriving DecidableEq

/-- `compressFile(audioDir, filename)` of `compress-audio.js` (the Opus/OGG
script): on exit code 0 the compressed output stands and the original MP3 is
`unlinkSync`ed; on a non-zero exit the promise is rejected with the code and
the captured stderr, and **nothing is cleaned up** — whatever output `ffmpeg`
left behind stays on disk; on a spawn error the promise is rejected. -/
def compressFileOpus : FfmpegRun → CompressOutcome
  | FfmpegRun.exited code out diag =>
    if code = 0 then
      { resolved := true, errMsg := "", outputExists := true, inputDeleted := true }
    else
      { resolved := false,
        errMsg := "FFmpeg failed with code " ++ toString code ++ ": " ++ diag,
        outputExists := out, inputDeleted := false }
  | FfmpegRun.spawnFailed msg =>
    { resolved := false, errMsg := "Failed to start FFmpeg: " ++ msg,
      outputExists := false, inputDeleted := false }

/-- `compressFile(sourceAudioDir, targetAudioDir, filename)` of
`compress-audio-mp3.js`: same success path (reading from the backup, the
source file is not deleted), but on a non-zero exit or spawn error the
handler first deletes the output file if it exists, then rejects. -/
def compressFileMp3 : FfmpegRun → CompressOutcome
  | FfmpegRun.exited code _out diag =>
    if code = 0 then
      { resolved := true, errMsg := "", outputExists := true, inputDeleted := false }
    else
      { resolved := false,
        errMsg := "FFmpeg failed with code " ++ toString code ++ ": " ++ diag,
        outputExists := false, inputDeleted := false }
  | FfmpegRun.spawnFailed msg =>
    { resolved := false, errMsg := "Failed to start FFmpeg: " ++ msg,
      outputExists := false, inputDeleted := false }

/-- The error list and processed-file counter of `this.stats`. -/
structure ScriptStats where
  processedFiles : Nat
  errors : List (String × String)
deriving DecidableEq

/-- The `for (let i = 0; ...)` loop of `compressLanguageFiles`, shared by both
compression scripts (they differ only in which `compressFile` they call):
each file is compressed inside a `try`; on success `processedFiles` is
incremented, on failure one `{ file, error }` entry is pushed and the loop
moves on to the next file.  Returns the final stats together with, per file
in order, its name and whether its output file exists afterwards. -/
def compressLanguageFiles (compressFile : FfmpegRun → CompressOutcome) :
    List (String × FfmpegRun) → ScriptStats × List (String × Bool)
  | [] => (⟨0, []⟩, [])
  | (name, run) :: rest =>
    let o := compressFile run
    let (stats, outs) := compressLanguageFiles compressFile rest
    if o.resolved then
      (⟨stats.processedFiles + 1, stats.errors⟩, (name, o.outputExists) :: outs)
    else
      (⟨stats.processedFiles, (name, o.errMsg) :: stats.errors⟩, (name, o.outputExists) :: outs)

/-- The outcome of one whole script run: the process's exit code, whether any
compression work (backup, encoding) was reached, and the final stats. -/
structure RunOutcome where
  exitCode : Nat
  workReached : Bool
  stats : ScriptStats
deriving DecidableEq

/-- `init()` of `compress-audio.js`: if `checkFFmpeg()` fails the process
calls `process.exit(1)` before any analysis, backup or compression; otherwise
the whole run proceeds, per-file failures are only recorded in
`stats.errors`, and the process ends normally (exit status 0). -/
def initOpus (ffmpegAvailable : Bool) (files : List (String × FfmpegRun)) : RunOutcome :=
  if ffmpegAvailable then
    let r := compressLanguageFiles compressFileOpus files
    { exitCode := 0, workReached := true, stats := r.fst }
  else
    { exitCode := 1, workReached := false, stats := ⟨0, []⟩ }

/-- `init()` of `compress-audio-mp3.js`: identical control flow, with the MP3
variant of `compressFile`. -/
def initMp3 (ffmpegAvailable : Bool) (files : List (String × FfmpegRun)) : RunOutcome :=
  if ffmpegAvailable then
    let r := compressLanguageFiles compressFileMp3 files
    { exitCode := 0, workReached := true, stats := r.fst }
  else
    { exitCode := 1, workReached := false, stats := ⟨0, []⟩ }

/-! ## `createBackup` / `copyDirectory`

Both compression scripts guard their destructive work with the same backup
step: if the backup directory already exists, nothing is copied; otherwise
`copyDirectory` recursively copies the whole source tree (directories
recursed, files `copyFileSync`ed) into the freshly created backup
directory. -/

mutual
/-- A filesystem subtree: a file with its (byte) content, or a directory of
named entries in order. -/
inductive FsNode where
  | file : String → FsNode
  | dir : FsEntries → FsNode
deriving DecidableEq

/-- The named entries of a directory. -/
inductive FsEntries where
  | nil : FsEntries
  | cons : String → FsNode → FsEntries → FsEntries
deriving DecidableEq
end

mutual
/-- `copyDirectory(src, dest)` with `dest` not yet existing (the only way
`createBackup` invokes it): `mkdirSync` the destination, then copy each
entry — recursing into directories, `copyFileSync`ing files.  The result is
the tree that comes to exist at `dest`. -/
def copyDirectory : FsNode → FsNode
  | FsNode.file content => FsNode.file content
  | FsNode.dir entries => FsNode.dir (copyEntries entries)

/-- `copyDirectory` over a directory's entries. -/
def copyEntries : FsEntries → FsEntries
  | FsEntries.nil => FsEntries.nil
  | FsEntries.cons name node rest => FsEntries.cons name (copyDirectory node) (copyEntries rest)
end

/-- The filesystem state `createBackup` sees and produces: the source tree
(`this.baseDir`) and the backup tree (`this.backupDir`), the latter absent
when the backup directory does not exist. -/
structure BackupFs where
  source : FsNode
  backup : Option FsNode
deriving DecidableEq

/-- `createBackup()` of both compression scripts: if the backup directory
exists, log "Backup already exists, skipping..." and return without touching
anything; otherwise copy the whole source tree to the backup directory. -/
def createBackup (fsState : BackupFs) : BackupFs :=
  match fsState.backup with
  | some _ => fsState
  | none => { fsState with backup := some (copyDirectory fsState.source) }

/-! ## String-level lemmas

Facts about `.mp3`-suffixed strings and first-occurrence replacement that the
tree-level proofs rest on.  The key structural fact is that `.mp3` cannot
overlap itself or `.ogg`: its proper prefixes and suffixes share no
character string. -/

theorem mp3Suffix_data : mp3Suffix.data = ['.', 'm', 'p', '3'] := by decide

theorem oggSuffix_data : oggSuffix.data = ['.', 'o', 'g', 'g'] := by decide

theorem mp3Suffix_length : mp3Suffix.length = 4 := by decide

/-- `s.endsWith('.mp3')` holds exactly when the character list of `s` splits
as some prefix followed by `.mp3`. -/
theorem jsEndsWith_mp3_iff (s : String) :
    jsEndsWith s mp3Suffix = true ↔ ∃ a, s.data = a ++ mp3Suffix.data := by
  unfold jsEndsWith
  rw [List.isSuffixOf_iff_suffix]
  constructor
  · rintro ⟨t, ht⟩
    exact ⟨t, ht.symm⟩
  · rintro ⟨a, ha⟩
    exact ⟨a, ha.symm⟩

/-- If `.mp3` is a prefix of `a ++ ".mp3"`, then either `a` is empty (the
match is the appended suffix itself) or the match already lies at the front
of `a`: because `.mp3` has no nontrivial self-overlap, a match cannot
straddle the boundary. -/
theorem mp3_isPrefixOf_append (a : List Char)
    (h : mp3Suffix.data.isPrefixOf (a ++ mp3Suffix.data) = true) :
    a = [] ∨ mp3Suffix.data.isPrefixOf a = true := by
  rw [mp3Suffix_data] at h ⊢
  match a with
  | [] => exact Or.inl rfl
  | [c1] =>
    rw [List.isPrefixOf_iff_prefix] at h
    simp [List.cons_prefix_cons] at h
  | [c1, c2] =>
    rw [List.isPrefixOf_iff_prefix] at h
    simp [List.cons_prefix_cons] at h
  | [c1, c2, c3] =>
    rw [List.isPrefixOf_iff_prefix] at h
    simp [List.cons_prefix_cons] at h
  | c1 :: c2 :: c3 :: c4 :: rest =>
    rw [List.isPrefixOf_iff_prefix] at h ⊢
    simp [List.cons_prefix_cons] at h ⊢
    exact h

/-- Replacing the first occurrence of `.mp3` in `a ++ ".mp3"`, when `a`
contains no occurrence of `.mp3`, replaces exactly the final suffix. -/
theorem replaceFirstChars_append_suffix (a : List Char)
    (h : hasSubChars mp3Suffix.data a = false) :
    replaceFirstChars mp3Suffix.data oggSuffix.data (a ++ mp3Suffix.data) =
      a ++ oggSuffix.data := by
  induction a with
  | nil => decide
  | cons c cs ih =>
    rw [hasSubChars, Bool.or_eq_false_iff] at h
    have hnotpre : mp3Suffix.data.isPrefixOf ((c :: cs) ++ mp3Suffix.data) = false := by
      cases hp : mp3Suffix.data.isPrefixOf ((c :: cs) ++ mp3Suffix.data) with
      | false => rfl
      | true =>
        rcases mp3_isPrefixOf_append (c :: cs) hp with hnil | hpre
        · exact absurd hnil (by simp)
        · rw [hpre] at h
          exact absurd h.1 (by simp)
    rw [List.cons_append, replaceFirstChars, ← List.cons_append, hnotpre]
    simp only [Bool.false_eq_true, if_false, List.cons_append, List.cons.injEq, true_and]
    exact ih h.2

/-- A string of the form `a ++ ".ogg"` never ends in `.mp3`. -/
theorem append_ogg_not_endsWith_mp3 (a : List Char) :
    jsEndsWith (String.mk (a ++ oggSuffix.data)) mp3Suffix = false := by
  cases hp : jsEndsWith (String.mk (a ++ oggSuffix.data)) mp3Suffix with
  | false => rfl
  | true =>
    rw [jsEndsWith_mp3_iff] at hp
    rcases hp with ⟨b, hb⟩
    simp only [String.data] at hb
    have hlen : a.length = b.length := by
      have := congrArg List.length hb
      simp [oggSuffix_data, mp3Suffix_data] at this
      omega
    have := (List.append_inj hb hlen).2
    rw [oggSuffix_data, mp3Suffix_data] at this
    exact absurd this (by decide)

/-- Rewriting a good string that ends in `.mp3` (so: its only `.mp3` is the
final suffix) yields a string that no longer ends in `.mp3`. -/
theorem jsReplaceFirst_good_not_endsWith (s : String)
    (hgood : goodString s = true) (hends : jsEndsWith s mp3Suffix = true) :
    jsEndsWith (jsReplaceFirst s mp3Suffix oggSuffix) mp3Suffix = false := by
  rcases (jsEndsWith_mp3_iff s).mp hends with ⟨a, ha⟩
  have htake : s.data.take (s.data.length - mp3Suffix.length) = a := by
    rw [ha]
    have : (a ++ mp3Suffix.data).length - mp3Suffix.length = a.length := by
      simp [mp3Suffix_data, mp3Suffix_length]
    rw [this, List.take_left]
  have hsub : hasSubChars mp3Suffix.data a = false := by
    rw [goodString, hends] at hgood
    simp only [Bool.not_true, Bool.false_or, Bool.not_eq_true', htake] at hgood
    exact hgood
  rw [jsReplaceFirst, ha, replaceFirstChars_append_suffix a hsub]
  exact append_ogg_not_endsWith_mp3 a

/-! ## Tree-level lemmas: the value tree the walk returns

`updateObjectReferences` returns, in its `data` field, exactly the functional
tree map `specFirstRewrite`; these three mutually inductive lemmas establish
that, one for each of the mutually recursive walkers. -/

mutual
theorem updateObjectReferences_data_eq :
    ∀ j, (updateObjectReferences j).data = specFirstRewrite j
  | Json.str s => by simp [updateObjectReferences, specFirstRewrite]
  | Json.num n => by simp [updateObjectReferences, specFirstRewrite]
  | Json.bool b => by simp [updateObjectReferences, specFirstRewrite]
  | Json.null => by simp [updateObjectReferences, specFirstRewrite]
  | Json.arr items => by
    have ih := updateArrayItems_data_eq items
    simp [updateObjectReferences, specFirstRewrite, ih]
  | Json.obj fields => by
    have ih := updateObjectFields_data_eq fields
    simp [updateObjectReferences, specFirstRewrite, ih]

theorem updateArrayItems_data_eq :
    ∀ l, (updateArrayItems l).data = specFirstRewriteItems l
  | JsonItems.nil => by simp [updateArrayItems, specFirstRewriteItems]
  | JsonItems.cons item rest => by
    have ihtail := updateArrayItems_data_eq rest
    have ihhead := updateObjectReferences_data_eq item
    cases item with
    | str s =>
      by_cases h : jsEndsWith s mp3Suffix <;>
        simp [updateArrayItems, specFirstRewriteItems, specFirstItem, h, ihtail]
    | num n => simp [updateArrayItems, specFirstRewriteItems, specFirstItem, ihtail]
    | bool b => simp [updateArrayItems, specFirstRewriteItems, specFirstItem, ihtail]
    | null => simp [updateArrayItems, specFirstRewriteItems, specFirstItem, ihtail]
    | arr xs =>
      simp only [updateArrayItems, specFirstRewriteItems, specFirstItem]
      split <;> simp_all [specFirstRewrite]
    | obj fs =>
      simp only [updateArrayItems, specFirstRewriteItems, specFirstItem]
      split <;> simp_all [specFirstRewrite]

theorem updateObjectFields_data_eq :
    ∀ l, (updateObjectFields l).data = specFirstRewriteFields l
  | JsonFields.nil => by simp [updateObjectFields, specFirstRewriteFields]
  | JsonFields.cons key value rest => by
    have ihtail := updateObjectFields_data_eq rest
    have ihhead := updateObjectReferences_data_eq value
    cases value with
    | str s =>
      by_cases h : jsEndsWith s mp3Suffix <;>
        simp [updateObjectFields, specFirstRewriteFields, specFirstItem, h, ihtail]
    | num n => simp [updateObjectFields, specFirstRewriteFields, specFirstItem, ihtail]
    | bool b => simp [updateObjectFields, specFirstRewriteFields, specFirstItem, ihtail]
    | null => simp [updateObjectFields, specFirstRewriteFields, specFirstItem, ihtail]
    | arr xs =>
      simp only [updateObjectFields, specFirstRewriteFields, specFirstItem]
      split <;> simp_all [specFirstRewrite]
    | obj fs =>
      simp only [updateObjectFields, specFirstRewriteFields, specFirstItem]
      split <;> simp_all [specFirstRewrite]
end

/-! ## Tree-level lemmas: the change counter

`hasChanges` is set exactly when `changeCount` is positive, and `changeCount`
totals the matched string leaves (each nested subtree's count folded into its
parent once). -/

mutual
theorem updateObjectReferences_count_eq :
    ∀ j, ((updateObjectReferences j).hasChanges = true ↔
            0 < (updateObjectReferences j).changeCount) ∧
         (updateObjectReferences j).changeCount = countMatches j
  | Json.str s => by simp [updateObjectReferences, countMatches]
  | Json.num n => by simp [updateObjectReferences, countMatches]
  | Json.bool b => by simp [updateObjectReferences, countMatches]
  | Json.null => by simp [updateObjectReferences, countMatches]
  | Json.arr items => by
    have ih := updateArrayItems_count_eq items
    simpa [updateObjectReferences, countMatches] using ih
  | Json.obj fields => by
    have ih := updateObjectFields_count_eq fields
    simpa [updateObjectReferences, countMatches] using ih

theorem updateArrayItems_count_eq :
    ∀ l, ((updateArrayItems l).hasChanges = true ↔ 0 < (updateArrayItems l).changeCount) ∧
         (updateArrayItems l).changeCount = countMatchesItems l
  | JsonItems.nil => by simp [updateArrayItems, countMatchesItems]
  | JsonItems.cons item rest => by
    have ihtail := updateArrayItems_count_eq rest
    have ihhead := updateObjectReferences_count_eq item
    cases item with
    | str s =>
      by_cases h : jsEndsWith s mp3Suffix <;>
        simp [updateArrayItems, countMatchesItems, countMatches, h, ihtail.1, ihtail.2] <;>
        omega
    | num n =>
      simp [updateArrayItems, countMatchesItems, countMatches, ihtail.1, ihtail.2]
    | bool b =>
      simp [updateArrayItems, countMatchesItems, countMatches, ihtail.1, ihtail.2]
    | null =>
      simp [updateArrayItems, countMatchesItems, countMatches, ihtail.1, ihtail.2]
    | arr xs =>
      by_cases h : (updateObjectReferences (Json.arr xs)).hasChanges = true
      · have h1 := ihhead.1.mp h
        have h2 := ihhead.2
        have h3 := ihtail.2
        simp [updateArrayItems, countMatchesItems, h]
        omega
      · have h0 : (updateObjectReferences (Json.arr xs)).changeCount = 0 := by
          by_contra hne
          exact h (ihhead.1.mpr (Nat.pos_of_ne_zero hne))
        have h2 := ihhead.2
        have h3 := ihtail.2
        simp [updateArrayItems, countMatchesItems, h, ihtail.1]
        omega
    | obj fs =>
      by_cases h : (updateObjectReferences (Json.obj fs)).hasChanges = true
      · have h1 := ihhead.1.mp h
        have h2 := ihhead.2
        have h3 := ihtail.2
        simp [updateArrayItems, countMatchesItems, h]
        omega
      · have h0 : (updateObjectReferences (Json.obj fs)).changeCount = 0 := by
          by_contra hne
          exact h (ihhead.1.mpr (Nat.pos_of_ne_zero hne))
        have h2 := ihhead.2
        have h3 := ihtail.2
        simp [updateArrayItems, countMatchesItems, h, ihtail.1]
        omega

theorem updateObjectFields_count_eq :
    ∀ l, ((updateObjectFields l).hasChanges = true ↔ 0 < (updateObjectFields l).changeCount) ∧
         (updateObjectFields l).changeCount = countMatchesFields l
  | JsonFields.nil => by simp [updateObjectFields, countMatchesFields]
  | JsonFields.cons key value rest => by
    have ihtail := updateObjectFields_count_eq rest
    have ihhead := updateObjectReferences_count_eq value
    cases value with
    | str s =>
      by_cases h : jsEndsWith s mp3Suffix <;>
        simp [updateObjectFields, countMatchesFields, countMatches, h, ihtail.1, ihtail.2] <;>
        omega
    | num n =>
      simp [updateObjectFields, countMatchesFields, countMatches, ihtail.1, ihtail.2]
    | bool b =>
      simp [updateObjectFields, countMatchesFields, countMatches, ihtail.1, ihtail.2]
    | null =>
      simp [updateObjectFields, countMatchesFields, countMatches, ihtail.1, ihtail.2]
    | arr xs =>
      by_cases h : (updateObjectReferences (Json.arr xs)).hasChanges = true
      · have h1 := ihhead.1.mp h
        have h2 := ihhead.2
        have h3 := ihtail.2
        simp [updateObjectFields, countMatchesFields, h]
        omega
      · have h0 : (updateObjectReferences (Json.arr xs)).changeCount = 0 := by
          by_contra hne
          exact h (ihhead.1.mpr (Nat.pos_of_ne_zero hne))
        have h2 := ihhead.2
        have h3 := ihtail.2
        simp [updateObjectFields, countMatchesFields, h, ihtail.1]
        omega
    | obj fs =>
      by_cases h : (updateObjectReferences (Json.obj fs)).hasChanges = true
      · have h1 := ihhead.1.mp h
        have h2 := ihhead.2
        have h3 := ihtail.2
        simp [updateObjectFields, countMatchesFields, h]
        omega
      · have h0 : (updateObjectReferences (Json.obj fs)).changeCount = 0 := by
          by_contra hne
          exact h (ihhead.1.mpr (Nat.pos_of_ne_zero hne))
        have h2 := ihhead.2
        have h3 := ihtail.2
        simp [updateObjectFields, countMatchesFields, h, ihtail.1]
        omega
end

/-! ## Tree-level lemmas: structure preservation

`specFirstRewrite` (hence, by `updateObjectReferences_data_eq`, the walk's
returned tree) relates to its input by `onlyRefsAltered`: same shape, same
keys in the same order, only matching string leaves rewritten. -/

/-- A string member and its `specFirstItem` image are `onlyRefsAltered`-related. -/
theorem onlyRefsAltered_str_item (s : String) :
    onlyRefsAltered (Json.str s) (specFirstItem (Json.str s)) = true := by
  simp only [specFirstItem]
  split
  next h =>
    simp only [onlyRefsAltered, h]
    simp
  next h =>
    simp only [onlyRefsAltered]
    simp

mutual
theorem onlyRefsAltered_specFirstRewrite :
    ∀ j, onlyRefsAltered j (specFirstRewrite j) = true
  | Json.str s => by simp [specFirstRewrite, onlyRefsAltered]
  | Json.num n => by simp [specFirstRewrite, onlyRefsAltered]
  | Json.bool b => by simp [specFirstRewrite, onlyRefsAltered]
  | Json.null => by simp [specFirstRewrite, onlyRefsAltered]
  | Json.arr items => by
    have ih := onlyRefsAltered_items items
    simp [specFirstRewrite, onlyRefsAltered, ih]
  | Json.obj fields => by
    have ih := onlyRefsAltered_fields fields
    simp [specFirstRewrite, onlyRefsAltered, ih]

theorem onlyRefsAltered_items :
    ∀ l, onlyRefsAlteredItems l (specFirstRewriteItems l) = true
  | JsonItems.nil => by simp [specFirstRewriteItems, onlyRefsAlteredItems]
  | JsonItems.cons item rest => by
    have ihhead := onlyRefsAltered_item item
    have ihtail := onlyRefsAltered_items rest
    simp [specFirstRewriteItems, onlyRefsAlteredItems, ihhead, ihtail]

theorem onlyRefsAltered_fields :
    ∀ l, onlyRefsAlteredFields l (specFirstRewriteFields l) = true
  | JsonFields.nil => by simp [specFirstRewriteFields, onlyRefsAlteredFields]
  | JsonFields.cons key value rest => by
    have ihhead := onlyRefsAltered_item value
    have ihtail := onlyRefsAltered_fields rest
    simp [specFirstRewriteFields, onlyRefsAlteredFields, ihhead, ihtail]

theorem onlyRefsAltered_item :
    ∀ j, onlyRefsAltered j (specFirstItem j) = true
  | Json.str s => onlyRefsAltered_str_item s
  | Json.num n => by simp [specFirstItem, onlyRefsAltered]
  | Json.bool b => by simp [specFirstItem, onlyRefsAltered]
  | Json.null => by simp [specFirstItem, onlyRefsAltered]
  | Json.arr items => by
    have ih := onlyRefsAltered_items items
    simp [specFirstItem, onlyRefsAltered, ih]
  | Json.obj fields => by
    have ih := onlyRefsAltered_fields fields
    simp [specFirstItem, onlyRefsAltered, ih]
end

/-! ## Tree-level lemmas: what a second pass sees

On a tree whose matched leaves each contained `.mp3` only as their final
suffix (`goodLeaves`), the rewritten tree has no container string ending in
`.mp3` at all (`noMp3Leaves`), and on such a tree the walk is the identity
with a zero count. -/

/-- The `specFirstItem` image of a good string member is a string that no
longer ends in `.mp3`. -/
theorem specFirstItem_str_not_mp3 (s : String) (hgood : goodString s = true) :
    ∃ t, specFirstItem (Json.str s) = Json.str t ∧ jsEndsWith t mp3Suffix = false := by
  simp only [specFirstItem]
  split
  next he => exact ⟨_, rfl, jsReplaceFirst_good_not_endsWith s hgood he⟩
  next he => exact ⟨s, rfl, Bool.eq_false_iff.mpr he⟩

mutual
theorem specFirstRewrite_noMp3 :
    ∀ j, goodLeaves j = true → noMp3Leaves (specFirstRewrite j) = true
  | Json.str s => by intro h; simp [specFirstRewrite, noMp3Leaves]
  | Json.num n => by intro h; simp [specFirstRewrite, noMp3Leaves]
  | Json.bool b => by intro h; simp [specFirstRewrite, noMp3Leaves]
  | Json.null => by intro h; simp [specFirstRewrite, noMp3Leaves]
  | Json.arr items => by
    intro h
    have ih := specFirstRewriteItems_noMp3 items
    rw [goodLeaves] at h
    simp [specFirstRewrite, noMp3Leaves, ih h]
  | Json.obj fields => by
    intro h
    have ih := specFirstRewriteFields_noMp3 fields
    rw [goodLeaves] at h
    simp [specFirstRewrite, noMp3Leaves, ih h]

theorem specFirstRewriteItems_noMp3 :
    ∀ l, goodItems l = true → noMp3Items (specFirstRewriteItems l) = true
  | JsonItems.nil => by intro h; simp [specFirstRewriteItems, noMp3Items]
  | JsonItems.cons item rest => by
    intro h
    have ihhead := specFirstRewrite_noMp3 item
    have ihtail := specFirstRewriteItems_noMp3 rest
    cases item with
    | str s =>
      rw [goodItems, Bool.and_eq_true] at h
      obtain ⟨t, ht, hf⟩ := specFirstItem_str_not_mp3 s h.1
      rw [specFirstRewriteItems, ht]
      simp [noMp3Items, hf, ihtail h.2]
    | num n =>
      rw [goodItems, Bool.and_eq_true] at h
      simp [specFirstRewriteItems, specFirstItem, noMp3Items, noMp3Leaves, ihtail h.2]
      all_goals exact fun s hs => Json.noConfusion hs
    | bool b =>
      rw [goodItems, Bool.and_eq_true] at h
      simp [specFirstRewriteItems, specFirstItem, noMp3Items, noMp3Leaves, ihtail h.2]
      all_goals exact fun s hs => Json.noConfusion hs
    | null =>
      rw [goodItems, Bool.and_eq_true] at h
      simp [specFirstRewriteItems, specFirstItem, noMp3Items, noMp3Leaves, ihtail h.2]
      all_goals exact fun s hs => Json.noConfusion hs
    | arr xs =>
      rw [goodItems, Bool.and_eq_true] at h
      have hh := ihhead h.1
      rw [specFirstRewrite, noMp3Leaves] at hh
      simp [specFirstRewriteItems, specFirstItem, noMp3Items, noMp3Leaves, hh, ihtail h.2]
      all_goals exact fun s hs => Json.noConfusion hs
    | obj fs =>
      rw [goodItems, Bool.and_eq_true] at h
      have hh := ihhead h.1
      rw [specFirstRewrite, noMp3Leaves] at hh
      simp [specFirstRewriteItems, specFirstItem, noMp3Items, noMp3Leaves, hh, ihtail h.2]
      all_goals exact fun s hs => Json.noConfusion hs

theorem specFirstRewriteFields_noMp3 :
    ∀ l, goodFields l = true → noMp3Fields (specFirstRewriteFields l) = true
  | JsonFields.nil => by intro h; simp [specFirstRewriteFields, noMp3Fields]
  | JsonFields.cons key value rest => by
    intro h
    have ihhead := specFirstRewrite_noMp3 value
    have ihtail := specFirstRewriteFields_noMp3 rest
    cases value with
    | str s =>
      rw [goodFields, Bool.and_eq_true] at h
      obtain ⟨t, ht, hf⟩ := specFirstItem_str_not_mp3 s h.1
      rw [specFirstRewriteFields, ht]
      simp [noMp3Fields, hf, ihtail h.2]
    | num n =>
      rw [goodFields, Bool.and_eq_true] at h
      simp [specFirstRewriteFields, specFirstItem, noMp3Fields, noMp3Leaves, ihtail h.2]
      all_goals exact fun s hs => Json.noConfusion hs
    | bool b =>
      rw [goodFields, Bool.and_eq_true] at h
      simp [specFirstRewriteFields, specFirstItem, noMp3Fields, noMp3Leaves, ihtail h.2]
      all_goals exact fun s hs => Json.noConfusion hs
    | null =>
      rw [goodFields, Bool.and_eq_true] at h
      simp [specFirstRewriteFields, specFirstItem, noMp3Fields, noMp3Leaves, ihtail h.2]
      all_goals exact fun s hs => Json.noConfusion hs
    | arr xs =>
      rw [goodFields, Bool.and_eq_true] at h
      have hh := ihhead h.1
      rw [specFirstRewrite, noMp3Leaves] at hh
      simp [specFirstRewriteFields, specFirstItem, noMp3Fields, noMp3Leaves, hh, ihtail h.2]
      all_goals exact fun s hs => Json.noConfusion hs
    | obj fs =>
      rw [goodFields, Bool.and_eq_true] at h
      have hh := ihhead h.1
      rw [specFirstRewrite, noMp3Leaves] at hh
      simp [specFirstRewriteFields, specFirstItem, noMp3Fields, noMp3Leaves, hh, ihtail h.2]
      all_goals exact fun s hs => Json.noConfusion hs
end

mutual
theorem updateObjectReferences_noMp3_fixed :
    ∀ j, noMp3Leaves j = true → updateObjectReferences j = ⟨j, false, 0⟩
  | Json.str s => by intro h; simp [updateObjectReferences]
  | Json.num n => by intro h; simp [updateObjectReferences]
  | Json.bool b => by intro h; simp [updateObjectReferences]
  | Json.null => by intro h; simp [updateObjectReferences]
  | Json.arr items => by
    intro h
    have ih := updateArrayItems_noMp3_fixed items
    rw [noMp3Leaves] at h
    simp [updateObjectReferences, ih h]
  | Json.obj fields => by
    intro h
    have ih := updateObjectFields_noMp3_fixed fields
    rw [noMp3Leaves] at h
    simp [updateObjectFields, updateObjectReferences, ih h]

theorem updateArrayItems_noMp3_fixed :
    ∀ l, noMp3Items l = true → updateArrayItems l = ⟨l, false, 0⟩
  | JsonItems.nil => by intro h; simp [updateArrayItems]
  | JsonItems.cons item rest => by
    intro h
    have ihhead := updateObjectReferences_noMp3_fixed item
    have ihtail := updateArrayItems_noMp3_fixed rest
    cases item with
    | str s =>
      rw [noMp3Items, Bool.and_eq_true, Bool.not_eq_true'] at h
      simp [updateArrayItems, h.1, ihtail h.2]
    | num n =>
      rw [noMp3Items, Bool.and_eq_true] at h
      · simp [updateArrayItems, ihtail h.2]
      · exact fun s hs => Json.noConfusion hs
    | bool b =>
      rw [noMp3Items, Bool.and_eq_true] at h
      · simp [updateArrayItems, ihtail h.2]
      · exact fun s hs => Json.noConfusion hs
    | null =>
      rw [noMp3Items, Bool.and_eq_true] at h
      · simp [updateArrayItems, ihtail h.2]
      · exact fun s hs => Json.noConfusion hs
    | arr xs =>
      rw [noMp3Items, Bool.and_eq_true] at h
      · have hh := ihhead h.1
        simp [updateArrayItems, hh, ihtail h.2]
      · exact fun s hs => Json.noConfusion hs
    | obj fs =>
      rw [noMp3Items, Bool.and_eq_true] at h
      · have hh := ihhead h.1
        simp [updateArrayItems, hh, ihtail h.2]
      · exact fun s hs => Json.noConfusion hs

theorem updateObjectFields_noMp3_fixed :
    ∀ l, noMp3Fields l = true → updateObjectFields l = ⟨l, false, 0⟩
  | JsonFields.nil => by intro h; simp [updateObjectFields]
  | JsonFields.cons key value rest => by
    intro h
    have ihhead := updateObjectReferences_noMp3_fixed value
    have ihtail := updateObjectFields_noMp3_fixed rest
    cases value with
    | str s =>
      rw [noMp3Fields, Bool.and_eq_true, Bool.not_eq_true'] at h
      simp [updateObjectFields, h.1, ihtail h.2]
    | num n =>
      rw [noMp3Fields, Bool.and_eq_true] at h
      · simp [updateObjectFields, ihtail h.2]
      · exact fun s hs => Json.noConfusion hs
    | bool b =>
      rw [noMp3Fields, Bool.and_eq_true] at h
      · simp [updateObjectFields, ihtail h.2]
      · exact fun s hs => Json.noConfusion hs
    | null =>
      rw [noMp3Fields, Bool.and_eq_true] at h
      · simp [updateObjectFields, ihtail h.2]
      · exact fun s hs => Json.noConfusion hs
    | arr xs =>
      rw [noMp3Fields, Bool.and_eq_true] at h
      · have hh := ihhead h.1
        simp [updateObjectFields, hh, ihtail h.2]
      · exact fun s hs => Json.noConfusion hs
    | obj fs =>
      rw [noMp3Fields, Bool.and_eq_true] at h
      · have hh := ihhead h.1
        simp [updateObjectFields, hh, ihtail h.2]
      · exact fun s hs => Json.noConfusion hs
end

/-! ## Remaining helper lemmas -/

/-- Closed form of the `compressLanguageFiles` loop, for any per-file
compression function: the processed counter counts the resolved conversions,
the error list holds exactly one `{ file, error }` entry per rejected
conversion in file order, and every file — regardless of earlier failures —
gets its outcome recorded. -/
theorem compressLanguageFiles_eq (cf : FfmpegRun → CompressOutcome) :
    ∀ files, compressLanguageFiles cf files =
      (⟨(files.filter (fun f => (cf f.snd).resolved)).length,
        files.filterMap (fun f =>
          if (cf f.snd).resolved then none else some (f.fst, (cf f.snd).errMsg))⟩,
       files.map (fun f => (f.fst, (cf f.snd).outputExists))) := by
  intro files
  induction files with
  | nil => rfl
  | cons f rest ih =>
    obtain ⟨name, run⟩ := f
    by_cases h : (cf run).resolved = true <;>
      simp [compressLanguageFiles, ih, h, List.filter]

mutual
/-- `copyDirectory` reproduces the source tree exactly (files are copied
byte for byte, directories entry by entry in order). -/
theorem copyDirectory_id : ∀ t, copyDirectory t = t
  | FsNode.file c => by simp [copyDirectory]
  | FsNode.dir entries => by
    have ih := copyEntries_id entries
    simp [copyDirectory, ih]

theorem copyEntries_id : ∀ e, copyEntries e = e
  | FsEntries.nil => by simp [copyEntries]
  | FsEntries.cons name node rest => by
    have ih1 := copyDirectory_id node
    have ih2 := copyEntries_id rest
    simp [copyEntries, ih1, ih2]
end

/-- The scenario from the spec: `{"sound": "intro.mp3", "list": ["a.mp3",
"b.png"]}` is rewritten to `{"sound": "intro.ogg", "list": ["a.ogg",
"b.png"]}` with a change count of 2. -/
theorem scenario_two_references :
    updateObjectReferences
      (Json.obj (JsonFields.cons "sound" (Json.str "intro.mp3")
        (JsonFields.cons "list"
          (Json.arr (JsonItems.cons (Json.str "a.mp3")
            (JsonItems.cons (Json.str "b.png") JsonItems.nil)))
          JsonFields.nil)))
    = ⟨Json.obj (JsonFields.cons "sound" (Json.str "intro.ogg")
        (JsonFields.cons "list"
          (Json.arr (JsonItems.cons (Json.str "a.ogg")
            (JsonItems.cons (Json.str "b.png") JsonItems.nil)))
          JsonFields.nil)), true, 2⟩ := by
  decide

/-! ## The claims -/

/-- C1 (counterexample): the claim "every scalar string leaf ending in
`.mp3` is replaced by the same string minus that suffix plus `.ogg`" fails:
on the document `["x.mp3.mp3"]`, the code produces `["x.ogg.mp3"]` (it
replaces the **first** occurrence of `.mp3`), not the spec's
`["x.mp3.ogg"]`. -/
theorem C1_counterexample :
    (updateObjectReferences (Json.arr (JsonItems.cons (Json.str "x.mp3.mp3") JsonItems.nil))).data
        = Json.arr (JsonItems.cons (Json.str "x.ogg.mp3") JsonItems.nil) ∧
    specSuffixRewrite (Json.arr (JsonItems.cons (Json.str "x.mp3.mp3") JsonItems.nil))
        = Json.arr (JsonItems.cons (Json.str "x.mp3.ogg") JsonItems.nil) ∧
    (updateObjectReferences (Json.arr (JsonItems.cons (Json.str "x.mp3.mp3") JsonItems.nil))).data
        ≠ specSuffixRewrite (Json.arr (JsonItems.cons (Json.str "x.mp3.mp3") JsonItems.nil)) := by
  refine ⟨by decide, by decide, by decide⟩

/-- C1 (amended): for every input document, the returned value tree is the
input with, inside every array and object, each scalar string ending in
`.mp3` rewritten by replacing its **first** occurrence of `.mp3` with
`.ogg`; every other value (numbers, booleans, null, non-matching strings,
nested containers except for such replaced leaves, and a bare root scalar)
is returned structurally identical. -/
theorem C1_amended (j : Json) :
    (updateObjectReferences j).data = specFirstRewrite j :=
  updateObjectReferences_data_eq j

/-- C2 (counterexample): the rewrite is not idempotent: on `["a.mp3.mp3"]`
the first pass produces `["a.ogg.mp3"]`, which still ends in `.mp3`, so a
second pass reports one further change rather than zero. -/
theorem C2_counterexample :
    (updateObjectReferences
      (updateObjectReferences
        (Json.arr (JsonItems.cons (Json.str "a.mp3.mp3") JsonItems.nil))).data).changeCount = 1 ∧
    (updateObjectReferences
      (updateObjectReferences
        (Json.arr (JsonItems.cons (Json.str "a.mp3.mp3") JsonItems.nil))).data).hasChanges = true := by
  refine ⟨by decide, by decide⟩

/-- C2 (amended): on every document whose container string leaves contain
`.mp3` at most as their final suffix (`goodLeaves` — in particular every
document whose `.mp3` references are ordinary file names with a single
extension), the rewrite is idempotent: a second application returns the
first application's tree unchanged with `changeCount` 0 and `hasChanges`
false, because no value in the once-rewritten document ends in `.mp3`
anymore. -/
theorem C2_amended (j : Json) (h : goodLeaves j = true) :
    updateObjectReferences (updateObjectReferences j).data =
      ⟨(updateObjectReferences j).data, false, 0⟩ := by
  have h1 : noMp3Leaves (updateObjectReferences j).data = true := by
    rw [updateObjectReferences_data_eq]
    exact specFirstRewrite_noMp3 j h
  exact updateObjectReferences_noMp3_fixed _ h1

/-- C2 (witness): the amended idempotence applied to the concrete document
`{"sound": "intro.mp3"}`. -/
theorem C2_witness :
    goodLeaves (Json.obj (JsonFields.cons "sound" (Json.str "intro.mp3") JsonFields.nil)) = true ∧
    updateObjectReferences
        (updateObjectReferences
          (Json.obj (JsonFields.cons "sound" (Json.str "intro.mp3") JsonFields.nil))).data =
      ⟨(updateObjectReferences
          (Json.obj (JsonFields.cons "sound" (Json.str "intro.mp3") JsonFields.nil))).data,
       false, 0⟩ :=
  ⟨by decide,
   C2_amended (Json.obj (JsonFields.cons "sound" (Json.str "intro.mp3") JsonFields.nil)) (by decide)⟩

/-- C3: a successfully parsed document is written back to disk if and only
if at least one reference value inside it was changed (`changeCount ≥ 1`);
with zero matching values nothing is written, so the on-disk content is
untouched. -/
theorem C3_write_iff_changed (filePath : String) (d : Json) :
    ((updateJsonFile filePath (ReadResult.success d)).written ≠ none ↔
      1 ≤ (updateObjectReferences d).changeCount) ∧
    ((updateJsonFile filePath (ReadResult.success d)).written = none ∨
      (updateJsonFile filePath (ReadResult.success d)).written =
        some (updateObjectReferences d).data) := by
  have hc := (updateObjectReferences_count_eq d).1
  by_cases h : (updateObjectReferences d).hasChanges = true
  · have := hc.mp h
    simp [updateJsonFile, h]
    omega
  · have hzero : (updateObjectReferences d).changeCount = 0 :=
      Nat.eq_zero_of_not_pos (fun hpos => h (hc.mpr hpos))
    simp [updateJsonFile, h, hzero]

/-- C4 (counterexample): the claim "a non-zero encoder exit leaves no output
file behind" fails for `compress-audio.js`: when `ffmpeg` exits with code 1
having written a partial output file, the rejection handler performs no
cleanup and the output file is still on disk. -/
theorem C4_counterexample :
    (compressFileOpus (FfmpegRun.exited 1 true "encoder diagnostics")).resolved = false ∧
    (compressFileOpus (FfmpegRun.exited 1 true "encoder diagnostics")).outputExists = true := by
  refine ⟨by decide, by decide⟩

/-- C4 (amended): for every conversion whose encoder subprocess exits with a
non-zero code, the conversion is rejected; in `compress-audio-mp3.js` any
partially written output file is deleted (no output is left behind), while
in `compress-audio.js` the output file is left exactly as the encoder left
it; in both scripts the per-language loop records exactly one error entry
attributed to each rejected input file (the error list is precisely the
rejected files with their messages, in order) and continues with the next
file (every file of the list receives an outcome). -/
theorem C4_amended (cf : FfmpegRun → CompressOutcome)
    (hcf : cf = compressFileMp3 ∨ cf = compressFileOpus)
    (files : List (String × FfmpegRun)) (code : Nat) (out : Bool) (diag : String)
    (hcode : code ≠ 0) :
    (cf (FfmpegRun.exited code out diag)).resolved = false ∧
    (compressFileMp3 (FfmpegRun.exited code out diag)).outputExists = false ∧
    (compressFileOpus (FfmpegRun.exited code out diag)).outputExists = out ∧
    (compressLanguageFiles cf files).snd =
      files.map (fun f => (f.fst, (cf f.snd).outputExists)) ∧
    (compressLanguageFiles cf files).fst.errors =
      files.filterMap (fun f =>
        if (cf f.snd).resolved then none else some (f.fst, (cf f.snd).errMsg)) := by
  refine ⟨?_, ?_, ?_, ?_, ?_⟩
  · rcases hcf with h | h <;> rw [h] <;> simp [compressFileMp3, compressFileOpus, hcode]
  · simp [compressFileMp3, hcode]
  · simp [compressFileOpus, hcode]
  · rw [compressLanguageFiles_eq]
  · rw [compressLanguageFiles_eq]

/-- C4 (witness): the amended behaviour at a concrete two-file run of the
MP3 script in which the first conversion fails with exit code 1 and a
partial output, and the second succeeds. -/
theorem C4_witness :
    (1 : Nat) ≠ 0 ∧
    ((compressFileMp3 (FfmpegRun.exited 1 true "err")).resolved = false ∧
     (compressFileMp3 (FfmpegRun.exited 1 true "err")).outputExists = false ∧
     (compressFileOpus (FfmpegRun.exited 1 true "err")).outputExists = true ∧
     (compressLanguageFiles compressFileMp3
        [("p1.mp3", FfmpegRun.exited 1 true "err"),
         ("p2.mp3", FfmpegRun.exited 0 true "")]).snd =
       [("p1.mp3", FfmpegRun.exited 1 true "err"),
        ("p2.mp3", FfmpegRun.exited 0 true "")].map
         (fun f => (f.fst, (compressFileMp3 f.snd).outputExists)) ∧
     (compressLanguageFiles compressFileMp3
        [("p1.mp3", FfmpegRun.exited 1 true "err"),
         ("p2.mp3", FfmpegRun.exited 0 true "")]).fst.errors =
       [("p1.mp3", FfmpegRun.exited 1 true "err"),
        ("p2.mp3", FfmpegRun.exited 0 true "")].filterMap
         (fun f => if (compressFileMp3 f.snd).resolved then none
                   else some (f.fst, (compressFileMp3 f.snd).errMsg))) :=
  ⟨by decide,
   C4_amended compressFileMp3 (Or.inl rfl)
     [("p1.mp3", FfmpegRun.exited 1 true "err"), ("p2.mp3", FfmpegRun.exited 0 true "")]
     1 true "err" (by decide)⟩

/-- C5: the rewrite preserves key order and nesting structure exactly: at
every level the rewritten tree has the same constructors and the same keys
in the same order as the input, and the only values that differ are scalar
strings ending in `.mp3`, altered to their rewritten form. -/
theorem C5_structure_preserved (j : Json) :
    onlyRefsAltered j (updateObjectReferences j).data = true := by
  rw [updateObjectReferences_data_eq]
  exact onlyRefsAltered_specFirstRewrite j

/-- C6: a file whose content cannot be read or parsed produces a warning
naming the file and the error, is not written to, reports "not updated",
and does not disturb the processing of the other files: every file of the
run still receives its own outcome. -/
theorem C6_parse_failure_skipped (files : List (String × ReadResult))
    (i : Nat) (p e : String)
    (hi : files[i]? = some (p, ReadResult.failure e)) :
    (processFiles files).length = files.length ∧
    (processFiles files)[i]? =
      some { written := none, updated := false,
             warning := some ("   ⚠️  Warning: Could not process " ++ p ++ ": " ++ e) } := by
  constructor
  · simp [processFiles]
  · simp only [processFiles, List.getElem?_map, hi, Option.map_some]
    rfl

/-- C6 (witness): a run over three files whose middle file fails to parse. -/
theorem C6_witness :
    ([("a.json", ReadResult.success Json.null),
      ("bad.json", ReadResult.failure "Unexpected token"),
      ("c.json", ReadResult.success Json.null)][1]? =
        some ("bad.json", ReadResult.failure "Unexpected token")) ∧
    (processFiles
      [("a.json", ReadResult.success Json.null),
       ("bad.json", ReadResult.failure "Unexpected token"),
       ("c.json", ReadResult.success Json.null)]).length = 3 ∧
    (processFiles
      [("a.json", ReadResult.success Json.null),
       ("bad.json", ReadResult.failure "Unexpected token"),
       ("c.json", ReadResult.success Json.null)])[1]? =
      some { written := none, updated := false,
             warning := some ("   ⚠️  Warning: Could not process bad.json: Unexpected token") } :=
  ⟨by decide,
   (C6_parse_failure_skipped
     [("a.json", ReadResult.success Json.null),
      ("bad.json", ReadResult.failure "Unexpected token"),
      ("c.json", ReadResult.success Json.null)] 1 "bad.json" "Unexpected token" (by decide)).1,
   (C6_parse_failure_skipped
     [("a.json", ReadResult.success Json.null),
      ("bad.json", ReadResult.failure "Unexpected token"),
      ("c.json", ReadResult.success Json.null)] 1 "bad.json" "Unexpected token" (by decide)).2⟩

/-- C7: each compression script exits with status 0 on completion, whatever
per-file failures the run accumulated in its error list; a non-zero exit
(status 1) happens exactly when the `ffmpeg` binary cannot be located at
startup, and in that case the run aborts before any work is reached. -/
theorem C7_exit_status (files : List (String × FfmpegRun)) :
    (initOpus true files).exitCode = 0 ∧ (initMp3 true files).exitCode = 0 ∧
    (initOpus true files).workReached = true ∧ (initMp3 true files).workReached = true ∧
    (initOpus false files).exitCode = 1 ∧ (initMp3 false files).exitCode = 1 ∧
    (initOpus false files).workReached = false ∧ (initMp3 false files).workReached = false := by
  simp [initOpus, initMp3]

/-- C8: before any destructive compression work, `createBackup` copies the
whole source tree verbatim to the backup directory; if the backup directory
already exists the copy step is skipped entirely, so a second run is a
no-op and a stale backup is never refreshed or overwritten. -/
theorem C8_backup (st : BackupFs) :
    (st.backup = none →
      createBackup st = { source := st.source, backup := some st.source }) ∧
    (∀ b, st.backup = some b → createBackup st = st) ∧
    createBackup (createBackup st) = createBackup st := by
  obtain ⟨src, bk⟩ := st
  cases bk with
  | none =>
    refine ⟨?_, ?_, ?_⟩
    · intro _
      simp [createBackup, copyDirectory_id]
    · intro b hb
      simp at hb
    · simp [createBackup, copyDirectory_id]
  | some b =>
    refine ⟨?_, ?_, ?_⟩
    · intro hn
      simp at hn
    · intro b2 hb
      simp [createBackup]
    · simp [createBackup]

/-- C8 (witness): the backup behaviour at a concrete one-file source tree,
with no backup present and then with the freshly made backup present. -/
theorem C8_witness :
    (createBackup
        { source := FsNode.dir (FsEntries.cons "a" (FsNode.file "bytes") FsEntries.nil),
          backup := none } =
      { source := FsNode.dir (FsEntries.cons "a" (FsNode.file "bytes") FsEntries.nil),
        backup := some (FsNode.dir (FsEntries.cons "a" (FsNode.file "bytes") FsEntries.nil)) }) ∧
    createBackup
        (createBackup
          { source := FsNode.dir (FsEntries.cons "a" (FsNode.file "bytes") FsEntries.nil),
            backup := none }) =
      createBackup
        { source := FsNode.dir (FsEntries.cons "a" (FsNode.file "bytes") FsEntries.nil),
          backup := none } :=
  ⟨(C8_backup
      { source := FsNode.dir (FsEntries.cons "a" (FsNode.file "bytes") FsEntries.nil),
        backup := none }).1 rfl,
   (C8_backup
      { source := FsNode.dir (FsEntries.cons "a" (FsNode.file "bytes") FsEntries.nil),
        backup := none }).2.2⟩

/-- C9: a document whose root value is a bare scalar — including a string
ending in `.mp3` — is returned unchanged with `changeCount` 0 and
`hasChanges` false, so `updateJsonFile` never writes such a file: suffix
replacement only applies to strings sitting inside an array or an object. -/
theorem C9_root_scalar (j : Json) (h : isScalar j = true) :
    updateObjectReferences j = ⟨j, false, 0⟩ ∧
    ∀ filePath, updateJsonFile filePath (ReadResult.success j) =
      { written := none, updated := false, warning := none } := by
  have hupd : updateObjectReferences j = ⟨j, false, 0⟩ := by
    cases j with
    | str s => simp [updateObjectReferences]
    | num n => simp [updateObjectReferences]
    | bool b => simp [updateObjectReferences]
    | null => simp [updateObjectReferences]
    | arr items => simp [isScalar] at h
    | obj fields => simp [isScalar] at h
  refine ⟨hupd, fun filePath => ?_⟩
  simp [updateJsonFile, hupd]

/-- C9 (witness): the JSON document whose entire content is the string
`"intro.mp3"` is left untouched and its file is never rewritten. -/
theorem C9_witness :
    isScalar (Json.str "intro.mp3") = true ∧
    updateObjectReferences (Json.str "intro.mp3") = ⟨Json.str "intro.mp3", false, 0⟩ ∧
    updateJsonFile "story.json" (ReadResult.success (Json.str "intro.mp3")) =
      { written := none, updated := false, warning := none } :=
  ⟨by decide,
   (C9_root_scalar (Json.str "intro.mp3") (by decide)).1,
   (C9_root_scalar (Json.str "intro.mp3") (by decide)).2 "story.json"⟩

/-- C10: the result record of `updateObjectReferences` always satisfies
`hasChanges = (changeCount > 0)`, and `changeCount` equals the number of
string leaves the walk replaces (each nested subtree's count summed into
its parent exactly once). -/
theorem C10_count_invariant (j : Json) :
    ((updateObjectReferences j).hasChanges = true ↔
      0 < (updateObjectReferences j).changeCount) ∧
    (updateObjectReferences j).changeCount = countMatches j :=
  updateObjectReferences_count_eq j
